import Mathlib

deriving instance DecidableEq for Except

/-!
# Verification of the `ropwr` robust piecewise regression package

Shallow embedding of `ropwr/base.py` and `ropwr/cvx.py` (the method
selector, parameter/split/bound validation, the regression facade's
`fit`/`predict` state handling, and the monotonic-trend constraint
builder), together with theorems settling the specification claims.

Numeric values (floats in the source) are modelled as rationals `ℚ`;
the finiteness checks performed by `sklearn.utils.check_array`
(`force_all_finite=True`) are therefore vacuous and are not modelled.
The numerical solvers (`direct.py`, `cvx_socp.py`, `cvx_qp.py`) are
external collaborators outside the verified core; they are modelled as
an abstract `SolveFn` oracle returning either a coefficient table or an
error, exactly as the facade treats them.
-/

namespace Ropwr

/-- Error taxonomy: one constructor per distinct `raise` site (or
external failure kind) relevant to the embedded code of `base.py`. -/
inductive RErr where
  | invalidObjective
  | invalidDegree
  | invalidMonotonicTrend
  | convexDegreeError
  | convexContinuousError
  | invalidSolver
  | invalidHEpsilon
  | invalidQuantile
  | directIncompatible
  | osqpIncompatible
  | splitsNotUnique
  | inconsistentLength
  | lbGtUb
  | notFitted
  | nameError
  | solverFailure
deriving DecidableEq, Repr

/-- The constructor parameters of `RobustPWRegression.__init__`
(`base.py` lines 192-203), as returned by sklearn's `get_params`.
`degree` is an integer (`numbers.Integral`); `h_epsilon` and `quantile`
are numbers, modelled as `ℚ`.  The `isinstance` type checks of
`_check_parameters` are subsumed by the Lean field types. -/
structure Params where
  objective : String
  degree : Int
  continuous : Bool
  monotonic_trend : Option String
  solver : String
  h_epsilon : ℚ
  quantile : ℚ
  verbose : Bool
deriving DecidableEq, Repr

/-- Embedding of `_check_parameters` (`base.py` lines 25-67): the same
checks, in source order; each failing check raises (returns the
corresponding error).  The nested block guarded by
`monotonic_trend is not None` is flattened into conjunctions, which is
equivalent since each inner condition requires a non-`None` trend. -/
def _check_parameters (p : Params) : Except RErr Unit :=
  if p.objective ∉ (["l1", "l2", "huber", "quantile"] : List String) then
    .error .invalidObjective
  else if ¬ (0 ≤ p.degree ∧ p.degree ≤ 5) then
    .error .invalidDegree
  else if p.monotonic_trend ≠ none ∧
      p.monotonic_trend ∉ ([some "ascending", some "descending", some "convex",
        some "concave"] : List (Option String)) then
    .error .invalidMonotonicTrend
  else if (p.monotonic_trend = some "convex" ∨ p.monotonic_trend = some "concave") ∧
      p.degree ≠ 1 then
    .error .convexDegreeError
  else if (p.monotonic_trend = some "convex" ∨ p.monotonic_trend = some "concave") ∧
      p.continuous = false then
    .error .convexContinuousError
  else if p.solver ∉ (["auto", "ecos", "osqp", "direct"] : List String) then
    .error .invalidSolver
  else if ¬ (1 ≤ p.h_epsilon) then
    .error .invalidHEpsilon
  else if ¬ (0 < p.quantile ∧ p.quantile < 1) then
    .error .invalidQuantile
  else
    .ok ()

/-- The six canonical formulation tags returned (as strings) by
`_choose_method`. -/
inductive MethodTag where
  | lsq_direct
  | lsq_direct_separated
  | qp
  | qp_separated
  | socp
  | socp_separated
deriving DecidableEq, Repr

/-- Embedding of `_choose_method` (`base.py` lines 70-117).  The Python
function either returns one of six tag strings, raises `ValueError`, or
— when `solver` is not one of the four known strings, which validation
rules out — falls off the end returning `None`; the latter is modelled
by `.ok none`. -/
def _choose_method (objective : String) (degree : Int) (continuous : Bool)
    (monotonic_trend : Option String) (solver : String) (bounded : Bool) :
    Except RErr (Option MethodTag) :=
  if solver = "auto" then
    if bounded then
      if continuous then .ok (some .socp) else .ok (some .socp_separated)
    else
      if objective = "l2" then
        if monotonic_trend = none then
          if continuous then .ok (some .lsq_direct)
          else .ok (some .lsq_direct_separated)
        else
          if continuous then .ok (some .qp) else .ok (some .qp_separated)
      else
        if continuous then .ok (some .socp) else .ok (some .socp_separated)
  else if solver = "direct" then
    if objective ≠ "l2" ∨ monotonic_trend ≠ none ∨ bounded then
      .error .directIncompatible
    else
      if continuous then .ok (some .lsq_direct) else .ok (some .lsq_direct_separated)
  else if solver = "osqp" then
    if objective = "l2" then
      if continuous then .ok (some .qp) else .ok (some .qp_separated)
    else
      .error .osqpIncompatible
  else if solver = "ecos" then
    if continuous then .ok (some .socp) else .ok (some .socp_separated)
  else
    .ok none

-- `degree` is accepted but never inspected by `_choose_method`, exactly as in
-- the source, where the `degree` argument is unused in the function body.

/-- Modelled from the spec: the decision table of spec section 4.3, row
by row ("direct", "osqp", "ecos", then the three "auto" rows).  A hard
error row is an `.error`; each formulation row yields the continuous or
separated variant per the continuity flag.  Defined from the spec's
words only, to be compared against `_choose_method`. -/
def specMethodSelector (objective : String) (continuous : Bool)
    (monotonic_trend : Option String) (solver : String) (bounded : Bool) :
    Except RErr MethodTag :=
  if solver = "direct" then
    if objective ≠ "l2" ∨ monotonic_trend ≠ none ∨ bounded then
      .error .directIncompatible
    else if continuous then .ok .lsq_direct else .ok .lsq_direct_separated
  else if solver = "osqp" then
    if objective ≠ "l2" then .error .osqpIncompatible
    else if continuous then .ok .qp else .ok .qp_separated
  else if solver = "ecos" then
    if continuous then .ok .socp else .ok .socp_separated
  else
    if bounded then
      if continuous then .ok .socp else .ok .socp_separated
    else if objective = "l2" ∧ monotonic_trend = none then
      if continuous then .ok .lsq_direct else .ok .lsq_direct_separated
    else if objective = "l2" then
      if continuous then .ok .qp else .ok .qp_separated
    else
      if continuous then .ok .socp else .ok .socp_separated

/-- Agreement between the code's selector result and the spec table:
the code returns exactly the tag the table prescribes, or both raise a
configuration error; a silent fall-through (`.ok none`) never agrees,
so agreement also certifies that the selector is total. -/
def agreesWithSpec (r : Except RErr (Option MethodTag)) (sp : Except RErr MethodTag) :
    Bool :=
  match r, sp with
  | .ok (some m), .ok m' => m = m'
  | .error _, .error _ => true
  | _, _ => false

/-- Embedding of `_check_bounds` (`base.py` lines 120-133).  The
`isinstance` number checks are subsumed by the `ℚ` type; the only
remaining check is `lb > ub` when both bounds are present. -/
def _check_bounds (lb ub : Option ℚ) : Except RErr Unit :=
  match lb, ub with
  | some l, some u => if l > u then .error .lbGtUb else .ok ()
  | _, _ => .ok ()

/-- The conditional bound check appearing in both `fit` (lines 241-244)
and `predict` (lines 329-332): `bounded = (lb is not None or ub is not
None); if bounded: _check_bounds(lb, ub)`. -/
def boundsGate (lb ub : Option ℚ) : Except RErr Unit :=
  if lb.isSome || ub.isSome then _check_bounds lb ub else .ok ()

/-- Embedding of `_check_splits` (`base.py` lines 136-145): finiteness
is vacuous over `ℚ`; duplicates are a hard error
(`len(set(user_splits)) != len(user_splits)`); the validated splits are
returned sorted ascending (`np.argsort` ordering). -/
def _check_splits (splits : List ℚ) : Except RErr (List ℚ) :=
  if splits.Nodup then .ok (splits.insertionSort (fun a b => a ≤ b))
  else .error .splitsNotUnique

/-- Instance state of `RobustPWRegression`: the constructor parameters
plus the three attributes mutated by `fit` (`coef_`, `_splits`,
`_is_fitted`).  The coefficient table is a list of per-segment rows of
ascending-power coefficients.  In Python `_splits` does not exist
before the first fit; it is modelled as initially `[]`, which is never
observable because `predict` checks `_is_fitted` first. -/
structure PWState where
  params : Params
  coef_ : Option (List (List ℚ))
  _splits : List ℚ
  _is_fitted : Bool
deriving DecidableEq, Repr

/-- `RobustPWRegression.__init__` (`base.py` lines 192-207): stores the
parameters, sets `coef_ = None` and `_is_fitted = False`. -/
def initState (p : Params) : PWState :=
  { params := p, coef_ := none, _splits := [], _is_fitted := false }

/-- The data handed to the delegated solver call inside `fit`: the
chosen formulation tag, the x-sorted samples, the raw user splits, the
degree, and the bounds.  (The Python call sites pass per-method subsets
of these plus the remaining hyper-parameters; one uniform record
suffices for the abstract oracle.) -/
structure SolveInput where
  method : MethodTag
  xs : List ℚ
  ys : List ℚ
  splits : List ℚ
  degree : Int
  lb : Option ℚ
  ub : Option ℚ
deriving DecidableEq, Repr

/-- The external solver layer (`lsq_direct`, `socp`, `qp`, ... from
`direct.py`, `cvx_socp.py`, `cvx_qp.py`): a black box returning a
coefficient table or failing, per spec section 1 ("treated as external
collaborators that consume a well-posed problem and return a
coefficient vector or fail"). -/
abbrev SolveFn : Type := SolveInput → Except RErr (List (List ℚ))

/-- `np.argsort`-based joint reordering of `x` and `y` by ascending `x`
(`base.py` lines 233-235). -/
def sortByX (x y : List ℚ) : List (ℚ × ℚ) :=
  (x.zip y).insertionSort (fun a b => a.1 ≤ b.1)

/-- Embedding of `RobustPWRegression.fit` (`base.py` lines 209-274) as
an explicit state transformer: each Python statement in source order; a
`raise` propagates with the instance state exactly as already mutated
at that point.  Note two facts of the source faithfully preserved here:
the sorted result of `_check_splits(splits)` is discarded (line 238
ignores the return value), so the solver receives and the instance
stores the raw `splits`; and the three attribute mutations occur only
after the delegated solve has returned (lines 270-272).  The
unreachable case in which `_choose_method` falls through (`.ok none`)
makes `self.coef_ = c` raise `NameError` before any mutation. -/
def fitExec (solve : SolveFn) (s : PWState) (x y splits : List ℚ)
    (lb ub : Option ℚ) : PWState × Option RErr :=
  match _check_parameters s.params with
  | .error e => (s, some e)
  | .ok _ =>
    if x.length ≠ y.length then (s, some .inconsistentLength)
    else
      let xy := sortByX x y
      let xs := xy.map Prod.fst
      let ys := xy.map Prod.snd
      match _check_splits splits with
      | .error e => (s, some e)
      | .ok _ =>
        match boundsGate lb ub with
        | .error e => (s, some e)
        | .ok _ =>
          match _choose_method s.params.objective s.params.degree
              s.params.continuous s.params.monotonic_trend s.params.solver
              (lb.isSome || ub.isSome) with
          | .error e => (s, some e)
          | .ok none => (s, some .nameError)
          | .ok (some m) =>
            match solve ⟨m, xs, ys, splits, s.params.degree, lb, ub⟩ with
            | .error e => (s, some e)
            | .ok c =>
              ({ s with coef_ := some c, _splits := splits, _is_fitted := true },
               none)

/-- `np.digitize(x, bins, right=False)` for ascending `bins`: the index
`i` such that `bins[i-1] <= x < bins[i]`, i.e. the number of bin edges
`≤ x`. -/
def np_digitize (xi : ℚ) (bins : List ℚ) : Nat :=
  (bins.filter (fun b => b ≤ xi)).length

/-- `np.polyval(coef[::-1], x)` for a row `coef` of ascending-power
coefficients: Horner evaluation of `coef[0] + coef[1]*x + ...`. -/
def np_polyval_asc (coef : List ℚ) (x : ℚ) : ℚ :=
  coef.foldr (fun c acc => c + x * acc) 0

/-- `np.clip(v, lb, ub)` with optional bounds: `np.minimum(ub,
np.maximum(lb, v))`, each side skipped when `None`. -/
def np_clip (v : ℚ) (lb ub : Option ℚ) : ℚ :=
  let v1 := match lb with | none => v | some l => if v ≤ l then l else v
  match ub with | none => v1 | some u => if u ≤ v1 then u else v1

/-- The prediction loop of `predict` (`base.py` lines 334-340):
`pred = np.zeros(...)`, then for each segment index
`i < n_bins = len(splits) + 1`, the samples whose digitized index
equals `i` are overwritten with segment `i`'s polynomial value.
(`indices = np.digitize(x, splits)` is recomputed per sample here,
which is equal because `np_digitize` is pure.) -/
def predictCore (coef : List (List ℚ)) (splits : List ℚ) (x : List ℚ) :
    List ℚ :=
  (List.range (splits.length + 1)).foldl
    (fun pred i =>
      List.zipWith
        (fun xi p =>
          if np_digitize xi splits = i then np_polyval_asc (coef.getD i []) xi
          else p)
        x pred)
    (x.map fun _ => (0 : ℚ))

/-- Embedding of `RobustPWRegression.predict` (`base.py` lines
305-346): not-fitted guard, bound validation when bounds are given, the
segment-wise polynomial evaluation, and the unconditional final
`np.clip` when bounds are given. -/
def predict (s : PWState) (x : List ℚ) (lb ub : Option ℚ) :
    Except RErr (List ℚ) :=
  if s._is_fitted = false then .error .notFitted
  else
    match boundsGate lb ub with
    | .error e => .error e
    | .ok _ =>
      let pred := predictCore (s.coef_.getD []) s._splits x
      if lb.isSome || ub.isSome then .ok (pred.map fun v => np_clip v lb ub)
      else .ok pred

/-- Direction of a linear inequality against zero in a cvxpy
constraint: `D * c >= 0` or `D * c <= 0`. -/
inductive Rel where
  | ge
  | le
deriving DecidableEq, Repr

/-- A shape constraint as built by `monotonic_trend_constraints`: a
matrix block `mat` (rows of `D`) and the inequality direction relating
`mat * c` to `0`. -/
structure ShapeConstr where
  mat : List (List ℚ)
  rel : Rel
deriving DecidableEq, Repr

/-- Python slice `D[:t]` where `t` may be `None` (`D[:None] = D`). -/
def pySliceTo (D : List (List ℚ)) (t : Option Nat) : List (List ℚ) :=
  match t with
  | none => D
  | some k => D.take k

/-- Python slice `D[t:]` where `t` may be `None` (`D[None:] = D`). -/
def pySliceFrom (D : List (List ℚ)) (t : Option Nat) : List (List ℚ) :=
  match t with
  | none => D
  | some k => D.drop k

/-- Embedding of `monotonic_trend_constraints` (`cvx.py` lines 9-17).
The cvxpy variable `c` is left abstract: the return value describes the
constraint(s) imposed on it.  The one-sided trends return one
constraint and the two-sided trends a list of two; both are modelled as
lists (a singleton for the one-sided case).  Any other trend value
falls through, returning `None`. -/
def monotonic_trend_constraints (monotonic_trend : Option String)
    (D : List (List ℚ)) (t : Option Nat) : Option (List ShapeConstr) :=
  if monotonic_trend = some "ascending" ∨ monotonic_trend = some "convex" then
    some [⟨D, .ge⟩]
  else if monotonic_trend = some "descending" ∨ monotonic_trend = some "concave" then
    some [⟨D, .le⟩]
  else if monotonic_trend = some "valley" then
    some [⟨pySliceTo D t, .le⟩, ⟨pySliceFrom D t, .ge⟩]
  else if monotonic_trend = some "peak" then
    some [⟨pySliceTo D t, .ge⟩, ⟨pySliceFrom D t, .le⟩]
  else
    none

/-- Dot product of a constraint row with the coefficient vector. -/
def dotRow (row c : List ℚ) : ℚ :=
  (List.zipWith (fun a b => a * b) row c).sum

/-- A coefficient vector satisfies a shape constraint when every row of
its matrix block meets the inequality. -/
def satisfiesConstr (c : List ℚ) (sc : ShapeConstr) : Prop :=
  ∀ row ∈ sc.mat,
    match sc.rel with
    | .ge => 0 ≤ dotRow row c
    | .le => dotRow row c ≤ 0

/-- A coefficient vector satisfies the whole returned constraint
list. -/
def satisfiesAll (c : List ℚ) (cs : List ShapeConstr) : Prop :=
  ∀ sc ∈ cs, satisfiesConstr c sc

/-! ## Concrete values used by witnesses and counterexamples -/

/-- The rational `1/2`, written in normal form so that the kernel can
evaluate comparisons on it. -/
def qhalf : ℚ := ⟨1, 2, by decide, by decide⟩

/-- The constructor defaults of `RobustPWRegression` (with `h_epsilon`
rounded from `1.35` to `2`, which is equally valid and kernel
friendly). -/
def pDefault : Params :=
  { objective := "l2", degree := 1, continuous := true,
    monotonic_trend := none, solver := "auto", h_epsilon := 2,
    quantile := qhalf, verbose := false }

/-- A solver oracle that always succeeds with a fixed one-segment
constant table. -/
def trivSolve : SolveFn := fun _ => .ok [[0]]

/-- A solver oracle that records the splits it was handed inside the
returned coefficient table, making the data flow from `fit` to the
solver observable. -/
def echoSolve : SolveFn := fun si => .ok [si.splits]

/-- A parameter bag rejected by validation (invalid objective). -/
def pBadObjective : Params := { pDefault with objective := "l0" }

/-- A parameter bag with a convex trend at degree 2 (rejected). -/
def pConvexDeg2 : Params :=
  { pDefault with degree := 2, monotonic_trend := some "convex" }

/-- A parameter bag with the internal-only trend `"valley"`
(rejected). -/
def pValley : Params := { pDefault with monotonic_trend := some "valley" }

/-- A fitted state: one segment (no splits), constant polynomial `5`. -/
def sFitted : PWState :=
  { params := pDefault, coef_ := some [[5]], _splits := [], _is_fitted := true }

/-! ## Validation facts -/

/-- Everything a successful `_check_parameters` run guarantees about
the fields inspected by the later stages: objective and solver come
from their allowed sets, the trend is `None` or one of the four public
strings, and a convex/concave trend forces `degree = 1` and
`continuous = True`. -/
lemma check_parameters_ok_facts (p : Params) (h : _check_parameters p = .ok ()) :
    p.objective ∈ (["l1", "l2", "huber", "quantile"] : List String) ∧
    p.solver ∈ (["auto", "ecos", "osqp", "direct"] : List String) ∧
    (p.monotonic_trend = none ∨
      p.monotonic_trend ∈ ([some "ascending", some "descending", some "convex",
        some "concave"] : List (Option String))) ∧
    ((p.monotonic_trend = some "convex" ∨ p.monotonic_trend = some "concave") →
      p.degree = 1 ∧ p.continuous = true) := by
  unfold _check_parameters at h
  split_ifs at h with h1 h2 h3 h4 h5 h6 h7 h8
  push_neg at h1 h3 h4 h5 h6
  refine ⟨h1, h6, ?_, ?_⟩
  · by_cases hn : p.monotonic_trend = none
    · exact Or.inl hn
    · exact Or.inr (h3 hn)
  · intro hc
    refine ⟨h4 hc, ?_⟩
    cases hcont : p.continuous with
    | true => rfl
    | false => exact absurd (h5 hc) (by simp [hcont])

/-! ## Claim theorems -/

/-- C1: for every parameter combination accepted by `_check_parameters`
and either value of `bounded`, `_choose_method` returns exactly one of
the six canonical formulation tags or raises a configuration error, and
the outcome agrees row by row with the decision table of spec section
4.3 (`specMethodSelector`); in particular the Python function never
falls off the end returning `None` (such a fall-through would make
`agreesWithSpec` false). -/
theorem choose_method_matches_spec (p : Params) (bounded : Bool)
    (h : _check_parameters p = .ok ()) :
    agreesWithSpec
      (_choose_method p.objective p.degree p.continuous p.monotonic_trend
        p.solver bounded)
      (specMethodSelector p.objective p.continuous p.monotonic_trend
        p.solver bounded) = true := by
  obtain ⟨hobj, hsol, htrend, -⟩ := check_parameters_ok_facts p h
  simp only [List.mem_cons, List.not_mem_nil, or_false] at hobj hsol htrend
  obtain ⟨o, d, c, t, sol, he, q, v⟩ := p
  simp only at hobj hsol htrend ⊢
  rcases htrend with rfl | rfl | rfl | rfl | rfl <;>
    rcases hobj with rfl | rfl | rfl | rfl <;>
      rcases hsol with rfl | rfl | rfl | rfl <;>
        cases c <;> cases bounded <;> rfl

/-- Witness for C1 at the constructor defaults with `bounded = false`. -/
theorem choose_method_matches_spec_witness :
    _check_parameters pDefault = .ok () ∧
      agreesWithSpec
        (_choose_method pDefault.objective pDefault.degree pDefault.continuous
          pDefault.monotonic_trend pDefault.solver false)
        (specMethodSelector pDefault.objective pDefault.continuous
          pDefault.monotonic_trend pDefault.solver false) = true :=
  ⟨by decide, choose_method_matches_spec pDefault false (by decide)⟩

/-- C2 counterexample: the parameter combination `objective="l2"`,
`solver="osqp"` passes validation, yet with `bounded = true` the
selector returns the quadratic-program formulation, contradicting the
claim that `_choose_method` never returns `"qp"`/`"qp_separated"` when
bounded is true. -/
theorem bounded_qp_counterexample :
    _check_parameters { pDefault with solver := "osqp" } = .ok () ∧
      _choose_method "l2" 1 true none "osqp" true = .ok (some .qp) := by
  constructor <;> decide

/-- C2 (amended): for every validated parameter combination whose
solver is not `"osqp"`, the selector never chooses the
quadratic-program formulation when `bounded = true`; with
`solver="osqp"` and `objective="l2"` it returns `qp`/`qp_separated`
regardless of `bounded`. -/
theorem bounded_avoids_qp (p : Params) (h : _check_parameters p = .ok ())
    (hs : p.solver ≠ "osqp") :
    (∀ m, _choose_method p.objective p.degree p.continuous p.monotonic_trend
        p.solver true = .ok (some m) → m ≠ .qp ∧ m ≠ .qp_separated) ∧
    (p.objective = "l2" → ∀ b : Bool,
      _choose_method p.objective p.degree p.continuous p.monotonic_trend
        "osqp" b = .ok (some (if p.continuous then .qp else .qp_separated))) := by
  obtain ⟨hobj, hsol, htrend, -⟩ := check_parameters_ok_facts p h
  simp only [List.mem_cons, List.not_mem_nil, or_false] at hobj hsol htrend
  obtain ⟨o, d, c, t, sol, he, q, v⟩ := p
  simp only at hobj hsol htrend hs ⊢
  constructor
  · rcases hsol with rfl | rfl | rfl | rfl
    · rcases hobj with rfl | rfl | rfl | rfl <;>
        rcases htrend with rfl | rfl | rfl | rfl | rfl <;>
          cases c <;> intro m hm <;>
            simp only [_choose_method, reduceIte] at hm <;>
              simp_all <;> subst hm <;> decide
    · cases c <;> intro m hm <;>
        simp only [_choose_method, reduceIte] at hm <;>
          simp_all <;> subst hm <;> decide
    · exact absurd rfl hs
    · rcases hobj with rfl | rfl | rfl | rfl <;>
        rcases htrend with rfl | rfl | rfl | rfl | rfl <;>
          cases c <;> intro m hm <;>
            simp only [_choose_method, reduceIte] at hm <;> simp_all
  · rintro rfl b
    cases c <;> rfl

/-- Witness for C2's amended theorem at the defaults (solver
`"auto"`, bounded): the chosen formulation `socp` is neither `qp` nor
`qp_separated`, and switching the solver to `"osqp"` yields `qp` even
when bounded. -/
theorem bounded_avoids_qp_witness :
    (MethodTag.socp ≠ MethodTag.qp ∧ MethodTag.socp ≠ MethodTag.qp_separated) ∧
      _choose_method "l2" 1 true none "osqp" true = .ok (some .qp) :=
  ⟨(bounded_avoids_qp pDefault (by decide) (by decide)).1 .socp (by decide),
   (bounded_avoids_qp pDefault (by decide) (by decide)).2 rfl true⟩

/-- C3 (code bug): `fit` validates the splits through `_check_splits`,
which returns them sorted ascending, but discards that result: with the
unsorted input `[2, 1]` the fit succeeds, the solver is handed the raw
`[2, 1]` (observable through `echoSolve`, which returns its `splits`
argument as the coefficient table), and the stored `_splits` are the
raw unsorted `[2, 1]`, not the sorted `[1, 2]` that `_check_splits`
produced. -/
theorem fit_uses_unsorted_splits :
    _check_splits [2, 1] = .ok [1, 2] ∧
      (fitExec echoSolve (initState pDefault) [0, 1, 2, 3] [0, 1, 2, 3]
          [2, 1] none none).2 = none ∧
      ((fitExec echoSolve (initState pDefault) [0, 1, 2, 3] [0, 1, 2, 3]
          [2, 1] none none).1)._splits = [2, 1] ∧
      ((fitExec echoSolve (initState pDefault) [0, 1, 2, 3] [0, 1, 2, 3]
          [2, 1] none none).1).coef_ = some [[2, 1]] := by
  refine ⟨by decide, by decide, by decide, by decide⟩

/-- Shared helper: every error path of `fitExec` returns the state
exactly as it was at entry (no mutation precedes any raise site). -/
lemma fitExec_error_state (solve : SolveFn) (s : PWState) (x y splits : List ℚ)
    (lb ub : Option ℚ) (s' : PWState) (e : RErr)
    (h : fitExec solve s x y splits lb ub = (s', some e)) : s' = s := by
  unfold fitExec at h
  repeat' split at h
  all_goals try simp_all
  rename_i m hlen hsp hbg hcm
  cases hsolve : solve (SolveInput.mk m (List.map Prod.fst (sortByX x y))
      (List.map Prod.snd (sortByX x y)) splits s.params.degree lb ub) with
  | error e2 => rw [hsolve] at h; simp_all
  | ok c => rw [hsolve] at h; simp_all

/-- Shared helper: a successful `fitExec` run got a coefficient table
from the solver and performed exactly the three final mutations of
`fit` (lines 270-272). -/
lemma fitExec_ok_state (solve : SolveFn) (s : PWState) (x y splits : List ℚ)
    (lb ub : Option ℚ) (s' : PWState)
    (h : fitExec solve s x y splits lb ub = (s', none)) :
    ∃ si c, solve si = .ok c ∧
      s' = { s with coef_ := some c, _splits := splits, _is_fitted := true } := by
  unfold fitExec at h
  repeat' split at h
  all_goals try simp_all
  rename_i m hlen hsp hbg hcm
  cases hsolve : solve (SolveInput.mk m (List.map Prod.fst (sortByX x y))
      (List.map Prod.snd (sortByX x y)) splits s.params.degree lb ub) with
  | error e2 => rw [hsolve] at h; simp_all
  | ok c =>
    rw [hsolve] at h
    have h1 := congrArg Prod.fst h
    simp at h1
    exact ⟨_, c, hsolve, h1.symm⟩

/-- C4: `fit` is atomic with respect to fitted state.  If any stage of
`fitExec` raises (parameter validation, data validation, split or bound
check, method selection, or the delegated solve), the returned instance
state — in particular `coef_`, `_splits` and `_is_fitted` — is exactly
the entry state; and on success the state is mutated exactly once, to
the coefficients returned by the solve, the given splits, and
`_is_fitted = true`. -/
theorem fit_atomic (solve : SolveFn) (s : PWState) (x y splits : List ℚ)
    (lb ub : Option ℚ) :
    (∀ s' e, fitExec solve s x y splits lb ub = (s', some e) → s' = s) ∧
    (∀ s', fitExec solve s x y splits lb ub = (s', none) →
      ∃ si c, solve si = .ok c ∧
        s' = { s with coef_ := some c, _splits := splits, _is_fitted := true }) :=
  ⟨fun s' e h => fitExec_error_state solve s x y splits lb ub s' e h,
   fun s' h => fitExec_ok_state solve s x y splits lb ub s' h⟩

/-- Witness for C4: a fit on a state whose objective is invalid fails
and returns the entry state unchanged. -/
theorem fit_atomic_witness :
    fitExec trivSolve (initState pBadObjective) [0] [0] [] none none
        = (initState pBadObjective, some .invalidObjective) ∧
      initState pBadObjective = initState pBadObjective :=
  ⟨by decide,
   (fit_atomic trivSolve (initState pBadObjective) [0] [0] [] none none).1
     (initState pBadObjective) .invalidObjective (by decide)⟩

/-- The states reachable without any successfully completed `fit` call:
a freshly constructed instance, or the result of a `fit` call that
raised.  (`predict` never mutates state, so it does not appear.) -/
inductive UnfittedReach : PWState → Prop where
  | init : ∀ p, UnfittedReach (initState p)
  | fitFailed : ∀ solve s x y splits lb ub s' e, UnfittedReach s →
      fitExec solve s x y splits lb ub = (s', some e) → UnfittedReach s'

/-- C9: on any instance on which no fit call has yet completed
successfully, `predict` — whatever its arguments — deterministically
raises the not-fitted error and produces no predictions. -/
theorem predict_before_fit (s : PWState) (hs : UnfittedReach s)
    (x : List ℚ) (lb ub : Option ℚ) :
    predict s x lb ub = .error .notFitted := by
  have hfit : s._is_fitted = false := by
    induction hs with
    | init p => rfl
    | fitFailed solve s0 x0 y0 sp0 lb0 ub0 s0' e hr heq ih =>
      rw [fitExec_error_state solve s0 x0 y0 sp0 lb0 ub0 s0' e heq]
      exact ih
  unfold predict
  rw [hfit]
  rfl

/-- Witness for C9: a freshly constructed instance with the default
parameters rejects `predict`. -/
theorem predict_before_fit_witness :
    predict (initState pDefault) [0] none none = .error .notFitted :=
  predict_before_fit (initState pDefault) (UnfittedReach.init pDefault)
    [0] none none

/-- C7: `monotonic_trend_constraints` splits the two-sided shapes at
the pivot `t` with opposite-signed inequalities — "valley" is
`D[:t]·c ≤ 0` then `D[t:]·c ≥ 0`, "peak" is `D[:t]·c ≥ 0` then
`D[t:]·c ≤ 0` — while the one-sided trends yield the single inequality
`D·c ≥ 0` ("ascending"/"convex") or `D·c ≤ 0`
("descending"/"concave"). -/
theorem monotonic_constraints_shape (D : List (List ℚ)) (c : List ℚ) (t : Nat)
    (ta : Option Nat) :
    (∃ cs, monotonic_trend_constraints (some "valley") D (some t) = some cs ∧
      (satisfiesAll c cs ↔
        ((∀ row ∈ D.take t, dotRow row c ≤ 0) ∧
          (∀ row ∈ D.drop t, 0 ≤ dotRow row c)))) ∧
    (∃ cs, monotonic_trend_constraints (some "peak") D (some t) = some cs ∧
      (satisfiesAll c cs ↔
        ((∀ row ∈ D.take t, 0 ≤ dotRow row c) ∧
          (∀ row ∈ D.drop t, dotRow row c ≤ 0)))) ∧
    (∃ cs, monotonic_trend_constraints (some "ascending") D ta = some cs ∧
      (satisfiesAll c cs ↔ ∀ row ∈ D, 0 ≤ dotRow row c)) ∧
    (∃ cs, monotonic_trend_constraints (some "convex") D ta = some cs ∧
      (satisfiesAll c cs ↔ ∀ row ∈ D, 0 ≤ dotRow row c)) ∧
    (∃ cs, monotonic_trend_constraints (some "descending") D ta = some cs ∧
      (satisfiesAll c cs ↔ ∀ row ∈ D, dotRow row c ≤ 0)) ∧
    (∃ cs, monotonic_trend_constraints (some "concave") D ta = some cs ∧
      (satisfiesAll c cs ↔ ∀ row ∈ D, dotRow row c ≤ 0)) := by
  refine ⟨⟨_, rfl, ?_⟩, ⟨_, rfl, ?_⟩, ⟨_, rfl, ?_⟩, ⟨_, rfl, ?_⟩,
    ⟨_, rfl, ?_⟩, ⟨_, rfl, ?_⟩⟩ <;>
    simp [satisfiesAll, satisfiesConstr, pySliceTo, pySliceFrom,
      monotonic_trend_constraints, and_comm]

/-- Witness for C7 at `D = [[1]]`, `c = [2]`, pivot `0`: the
"ascending" trend imposes exactly `0 ≤ 1 * 2`. -/
theorem monotonic_constraints_shape_witness :
    ∃ cs, monotonic_trend_constraints (some "ascending") [[1]] none = some cs ∧
      (satisfiesAll [2] cs ↔ ∀ row ∈ ([[1]] : List (List ℚ)), 0 ≤ dotRow row [2]) :=
  (monotonic_constraints_shape [[1]] [2] 0 none).2.2.1

/-- C8: whenever `monotonic_trend` is `"convex"` or `"concave"` and
either `degree ≠ 1` or `continuous = False`, validation raises a
configuration error and `fit` returns that error with the state
untouched and without ever reaching the solver; conversely any
parameter bag with a convex/concave trend that passes validation has
`degree = 1` and `continuous = True`. -/
theorem convex_concave_requires (p : Params)
    (ht : p.monotonic_trend = some "convex" ∨ p.monotonic_trend = some "concave") :
    ((p.degree ≠ 1 ∨ p.continuous = false) →
      ∃ e, _check_parameters p = .error e ∧
        ∀ (solve : SolveFn) (s : PWState) (x y splits : List ℚ)
          (lb ub : Option ℚ), s.params = p →
            fitExec solve s x y splits lb ub = (s, some e)) ∧
    (_check_parameters p = .ok () → p.degree = 1 ∧ p.continuous = true) := by
  constructor
  · intro hdc
    cases hcp : _check_parameters p with
    | error e =>
      refine ⟨e, rfl, ?_⟩
      intro solve s x y splits lb ub hsp
      unfold fitExec
      rw [hsp, hcp]
    | ok u =>
      cases u
      obtain ⟨-, -, -, h4⟩ := check_parameters_ok_facts p hcp
      rcases hdc with hd | hc
      · exact absurd (h4 ht).1 hd
      · rw [(h4 ht).2] at hc; cases hc
  · intro hok
    exact (check_parameters_ok_facts p hok).2.2.2 ht

/-- Witness for C8: `degree = 2` with trend `"convex"` is rejected
before any computation. -/
theorem convex_concave_requires_witness :
    ∃ e, _check_parameters pConvexDeg2 = .error e ∧
      ∀ (solve : SolveFn) (s : PWState) (x y splits : List ℚ)
        (lb ub : Option ℚ), s.params = pConvexDeg2 →
          fitExec solve s x y splits lb ub = (s, some e) :=
  (convex_concave_requires pConvexDeg2 (Or.inl rfl)).1 (Or.inl (by decide))

/-- C10: the constraint layer does implement the two-sided shapes
(`"valley"`/`"peak"` do not fall through to `None` in
`monotonic_trend_constraints`), yet they are unreachable from the
public interface: any parameter bag carrying them fails
`_check_parameters`, which accepts only `None`, `"ascending"`,
`"descending"`, `"convex"` and `"concave"`. -/
theorem valley_peak_unreachable :
    (∀ (D : List (List ℚ)) (t : Option Nat),
      monotonic_trend_constraints (some "valley") D t ≠ none ∧
      monotonic_trend_constraints (some "peak") D t ≠ none) ∧
    (∀ p : Params,
      p.monotonic_trend = some "valley" ∨ p.monotonic_trend = some "peak" →
      ∃ e, _check_parameters p = .error e) ∧
    (∀ p : Params, _check_parameters p = .ok () →
      p.monotonic_trend = none ∨ p.monotonic_trend = some "ascending" ∨
      p.monotonic_trend = some "descending" ∨
      p.monotonic_trend = some "convex" ∨
      p.monotonic_trend = some "concave") := by
  refine ⟨?_, ?_, ?_⟩
  · intro D t
    constructor <;> simp [monotonic_trend_constraints]
  · intro p hp
    cases hcp : _check_parameters p with
    | error e => exact ⟨e, rfl⟩
    | ok u =>
      cases u
      obtain ⟨-, -, h3, -⟩ := check_parameters_ok_facts p hcp
      rcases hp with h | h <;> rw [h] at h3 <;> rcases h3 with hn | hm
      · exact absurd hn (by decide)
      · exact absurd hm (by decide)
      · exact absurd hn (by decide)
      · exact absurd hm (by decide)
  · intro p hok
    obtain ⟨-, -, h3, -⟩ := check_parameters_ok_facts p hok
    rcases h3 with hn | hm
    · exact Or.inl hn
    · simp only [List.mem_cons, List.not_mem_nil, or_false] at hm
      tauto

/-- Witness for C10: a fit configured with trend `"valley"` is rejected
by validation. -/
theorem valley_peak_unreachable_witness :
    ∃ e, _check_parameters pValley = .error e :=
  valley_peak_unreachable.2.1 pValley (Or.inl rfl)

/-! ## List lemmas supporting the `predict` loop -/

lemma zipWith_comp {α β : Type} (f g : α → β → β) (l : List α) (init : List β) :
    List.zipWith f l (List.zipWith g l init)
      = List.zipWith (fun a b => f a (g a b)) l init := by
  induction l generalizing init with
  | nil => simp
  | cons a tl ih =>
    cases init with
    | nil => simp
    | cons b bs => simp [ih]

lemma zipWith_congr_fun {α β : Type} (f g : α → β → β) (l : List α)
    (init : List β) (h : ∀ a b, f a b = g a b) :
    List.zipWith f l init = List.zipWith g l init := by
  induction l generalizing init with
  | nil => simp
  | cons a tl ih =>
    cases init with
    | nil => simp
    | cons b bs => simp [h, ih]

lemma zipWith_right_id {α β : Type} (l : List α) (init : List β)
    (hlen : init.length = l.length) :
    List.zipWith (fun _ p => p) l init = init := by
  induction l generalizing init with
  | nil => cases init <;> simp_all
  | cons a tl ih =>
    cases init with
    | nil => simp_all
    | cons b bs =>
      simp only [List.zipWith_cons_cons]
      simp only [List.length_cons, Nat.succ.injEq] at hlen
      rw [ih bs hlen]

/-- The masked-overwrite loop of `predict`, run for segment indices
`0, ..., n-1`: a sample position holds its segment's value as soon as
its digitized index is below `n`, and the initial zero otherwise. -/
lemma range_foldl_mask (idx : ℚ → Nat) (f : Nat → ℚ → ℚ) (x : List ℚ)
    (init : List ℚ) (hlen : init.length = x.length) (n : Nat) :
    (List.range n).foldl
      (fun pred i =>
        List.zipWith (fun xi p => if idx xi = i then f i xi else p) x pred)
      init
    = List.zipWith (fun xi p => if idx xi < n then f (idx xi) xi else p) x
        init := by
  induction n with
  | zero =>
    rw [List.range_zero, List.foldl_nil]
    rw [zipWith_congr_fun _ (fun _ p => p) x init (by intro a b; simp)]
    exact (zipWith_right_id x init hlen).symm
  | succ n ih =>
    rw [List.range_succ, List.foldl_append, List.foldl_cons, List.foldl_nil,
      ih, zipWith_comp]
    apply zipWith_congr_fun
    intro a b
    by_cases h1 : idx a = n
    · subst h1
      simp [Nat.lt_succ_iff]
    · by_cases h2 : idx a < n
      · simp [h1, h2, Nat.lt_succ_of_lt h2]
      · have h3 : ¬ idx a < n + 1 := by omega
        simp [h1, h2, h3]

/-- `np.digitize` never exceeds the number of bin edges. -/
lemma digitize_le (xi : ℚ) (bins : List ℚ) : np_digitize xi bins ≤ bins.length :=
  List.length_filter_le _ _

/-- The prediction loop evaluates, for every sample, exactly the
polynomial of the sample's digitized segment: no sample is left at its
zero initialisation. -/
lemma predictCore_map (coef : List (List ℚ)) (splits : List ℚ) (x : List ℚ) :
    predictCore coef splits x
      = x.map (fun xi =>
          np_polyval_asc (coef.getD (np_digitize xi splits) []) xi) := by
  unfold predictCore
  rw [range_foldl_mask (fun xi => np_digitize xi splits)
      (fun i xi => np_polyval_asc (coef.getD i []) xi) x _ (by simp)]
  rw [zipWith_congr_fun _
      (fun xi p => np_polyval_asc (coef.getD (np_digitize xi splits) []) xi) x _
      (by
        intro a b
        have := digitize_le a splits
        simp [Nat.lt_succ_of_le this])]
  rw [List.zipWith_map_right]
  simp [List.zipWith_same]

/-- Below the first edge of a strictly sorted bin list, `np.digitize`
returns segment `0`. -/
lemma digitize_below_head (splits : List ℚ)
    (hsort : List.Sorted (fun a b : ℚ => a < b) splits)
    (h0 : 0 < splits.length) (xi : ℚ) (hlt : xi < splits.get ⟨0, h0⟩) :
    np_digitize xi splits = 0 := by
  cases splits with
  | nil => simp at h0
  | cons a tl =>
    rw [List.sorted_cons] at hsort
    unfold np_digitize
    simp only [List.length_eq_zero]
    rw [List.filter_eq_nil_iff]
    intro b hb
    simp only [decide_eq_true_eq]
    rcases List.mem_cons.mp hb with rfl | hbtl
    · exact not_le.mpr hlt
    · exact not_le.mpr (lt_trans hlt (hsort.1 b hbtl))

/-- A sample equal to edge `j` of a strictly sorted bin list is
digitized into segment `j + 1`, the segment whose interval begins at
that edge. -/
lemma digitize_at_split (splits : List ℚ)
    (hsort : List.Sorted (fun a b : ℚ => a < b) splits)
    (j : Fin splits.length) :
    np_digitize (splits.get j) splits = j.1 + 1 := by
  induction splits with
  | nil => exact absurd j.2 (by simp)
  | cons a tl ih =>
    rw [List.sorted_cons] at hsort
    rcases j with ⟨jv, hj⟩
    cases jv with
    | zero =>
      unfold np_digitize
      rw [List.filter_cons_of_pos (by simp)]
      simp only [List.length_cons, Nat.succ.injEq, List.length_eq_zero]
      rw [List.filter_eq_nil_iff]
      intro b hb
      simp only [decide_eq_true_eq]
      exact not_le.mpr (hsort.1 b hb)
    | succ k =>
      have hk : k < tl.length := by simpa using hj
      have hmem : tl.get ⟨k, hk⟩ ∈ tl := List.get_mem tl k hk
      have hget : (a :: tl).get ⟨k + 1, hj⟩ = tl.get ⟨k, hk⟩ := rfl
      rw [hget]
      unfold np_digitize
      rw [List.filter_cons_of_pos (by simpa using le_of_lt (hsort.1 _ hmem))]
      simp only [List.length_cons, Nat.succ.injEq]
      exact ih hsort.2 ⟨k, hk⟩

/-- C5: with the stored splits sorted strictly ascending, `predict`'s
binning assigns every sample exactly one of the `len(splits) + 1`
segment indices (right-open binning): the index is always in range, a
sample strictly below the first split gets segment `0`, a sample equal
to split `j` gets segment `j + 1` — the segment whose interval begins
at that split — and the prediction loop evaluates every sample with
exactly its assigned segment's polynomial, leaving no sample
unassigned. -/
theorem predict_binning (splits : List ℚ)
    (hsort : List.Sorted (fun a b : ℚ => a < b) splits) :
    (∀ xi : ℚ, np_digitize xi splits < splits.length + 1) ∧
    (∀ (h0 : 0 < splits.length) (xi : ℚ), xi < splits.get ⟨0, h0⟩ →
      np_digitize xi splits = 0) ∧
    (∀ j : Fin splits.length, np_digitize (splits.get j) splits = j.1 + 1) ∧
    (∀ (coef : List (List ℚ)) (x : List ℚ),
      predictCore coef splits x
        = x.map fun xi =>
            np_polyval_asc (coef.getD (np_digitize xi splits) []) xi) := by
  refine ⟨?_, ?_, ?_, ?_⟩
  · intro xi
    exact Nat.lt_succ_of_le (digitize_le xi splits)
  · intro h0 xi hlt
    exact digitize_below_head splits hsort h0 xi hlt
  · intro j
    exact digitize_at_split splits hsort j
  · intro coef x
    exact predictCore_map coef splits x

/-- Witness for C5 at splits `[1, 2]`: the sample `1/2`, strictly below
the first split, is digitized into segment `0`. -/
theorem predict_binning_witness :
    List.Sorted (fun a b : ℚ => a < b) [1, 2] ∧ np_digitize qhalf [1, 2] = 0 :=
  ⟨by decide,
   (predict_binning [1, 2] (by decide)).2.1 (by decide) qhalf (by decide)⟩

/-- `np.clip` keeps a value inside whichever bounds are present,
provided the bounds are compatible. -/
lemma np_clip_mem (v : ℚ) (lb ub : Option ℚ)
    (hcompat : ∀ l u, lb = some l → ub = some u → l ≤ u) :
    (∀ l, lb = some l → l ≤ np_clip v lb ub) ∧
    (∀ u, ub = some u → np_clip v lb ub ≤ u) := by
  cases lb with
  | none =>
    cases ub with
    | none => simp [np_clip]
    | some u =>
      refine ⟨by simp, ?_⟩
      intro u' hu
      injection hu with hu
      subst hu
      simp only [np_clip]
      split_ifs with h
      · exact le_refl _
      · linarith
  | some l =>
    cases ub with
    | none =>
      refine ⟨?_, by simp⟩
      intro l' hl
      injection hl with hl
      subst hl
      simp only [np_clip]
      split_ifs with h
      · exact le_refl _
      · linarith
    | some u =>
      have hlu : l ≤ u := hcompat l u rfl rfl
      constructor
      · intro l' hl
        injection hl with hl
        subst hl
        simp only [np_clip]
        split_ifs with h1 h2 h2 <;> linarith
      · intro u' hu
        injection hu with hu
        subst hu
        simp only [np_clip]
        split_ifs with h1 h2 h2 <;> linarith

/-- A passed bound check certifies `lb ≤ ub` whenever both bounds are
present. -/
lemma boundsGate_ok_compat (lb ub : Option ℚ) (h : boundsGate lb ub = .ok ()) :
    ∀ l u, lb = some l → ub = some u → l ≤ u := by
  rintro l u rfl rfl
  unfold boundsGate _check_bounds at h
  simp only [Option.isSome_some, Bool.or_self, if_true] at h
  split_ifs at h with hgt
  exact not_lt.mp hgt

/-- C6: whenever `predict` is called with `lb` and/or `ub` and returns
predictions, every returned element respects the given bounds (lies in
`[lb, ub]` when both are given, above `lb` or below `ub` when only one
is).  The clipping is unconditional post-processing: the fitted state
`s` — and hence whether bounds constrained the fit — is arbitrary. -/
theorem predict_clipped (s : PWState) (x : List ℚ) (lb ub : Option ℚ)
    (r : List ℚ) (hb : (lb.isSome || ub.isSome) = true)
    (h : predict s x lb ub = .ok r) :
    ∀ v ∈ r, (∀ l, lb = some l → l ≤ v) ∧ (∀ u, ub = some u → v ≤ u) := by
  unfold predict at h
  split at h
  · exact absurd h (by simp)
  · cases hbg : boundsGate lb ub with
    | error e =>
      rw [hbg] at h
      exact absurd h (by simp)
    | ok u0 =>
      cases u0
      rw [hbg] at h
      dsimp only [] at h
      injection h with h
      subst h
      intro v hv
      obtain ⟨w, hw, rfl⟩ := List.mem_map.mp hv
      exact np_clip_mem w lb ub (boundsGate_ok_compat lb ub hbg)

/-- Witness for C6: on a fitted one-segment state with constant
polynomial `5`, predicting at `x = 10` with bounds `[0, 1]` yields `1`,
which lies within the bounds. -/
theorem predict_clipped_witness :
    predict sFitted [10] (some 0) (some 1) = .ok [1] ∧
      (1 : ℚ) ∈ ([1] : List ℚ) ∧
      (∀ l, (some (0 : ℚ)) = some l → l ≤ 1) ∧
      (∀ u, (some (1 : ℚ)) = some u → (1 : ℚ) ≤ u) := by
  have hp : predict sFitted [10] (some 0) (some 1) = .ok [1] := by
    norm_num [predict, sFitted, boundsGate, _check_bounds, predictCore,
      np_digitize, np_polyval_asc, np_clip, List.range_succ]
  refine ⟨hp, by simp, ?_, ?_⟩
  · exact fun l hl =>
      (predict_clipped sFitted [10] (some 0) (some 1) [1] (by decide) hp 1
        (by simp)).1 l hl
  · exact fun u hu =>
      (predict_clipped sFitted [10] (some 0) (some 1) [1] (by decide) hp 1
        (by simp)).2 u hu

end Ropwr
